import Mathlib

/-!
Verification of the `Timer` cooperative software-timer scheduler (`src/Timer.cpp`).

The scheduler owns a fixed array of `Event` slots. Registration operations
(`every`, `after`, `oscillate`, `pulse`, `pulseImmediate`) claim the first free
slot found by a linear scan (`findFreeEventIndex`), `stop` retires a slot, and
`update` dispatches every occupied slot once against the external millisecond
clock. The external clock `millis()` and the pin side effect `digitalWrite`
are modelled by passing the current time `now` as an argument and by returning
the list of emitted `Effect`s. Machine `unsigned long` values are modelled as
`Nat` with explicit reduction modulo `2 ^ 32` where wraparound matters, and
machine `int`/`int8_t` as `Int`.
-/

set_option autoImplicit false

/-- Width of the `unsigned long` millisecond counter, `2 ^ 32`. -/
def U32 : Nat := 4294967296

/-- Modelled from the spec: the "no timer available" sentinel `NO_TIMER_AVAILABLE`
is declared in `Timer.h`, which is not among the source files; the spec only says
it is a distinguished negative value. -/
def NO_TIMER_AVAILABLE : Int := -1

/-- Modelled from the spec: the "not an active event" sentinel `TIMER_NOT_AN_EVENT`
is declared in `Timer.h`, which is not among the source files; the spec only says
it is a second distinguished sentinel value. -/
def TIMER_NOT_AN_EVENT : Int := -2

/-- Slot discriminator: `EVENT_NONE`, `EVENT_EVERY`, `EVENT_OSCILLATE`. -/
inductive EventType where
  | none
  | every
  | oscillate
  deriving DecidableEq

/-- One slot of the event table. Callback and context pointers are modelled as
`Nat` addresses, `0` standing for the null pointer. -/
structure Event where
  eventType : EventType
  period : Nat
  lastEventTime : Nat
  repeatCount : Int
  count : Nat
  callback : Nat
  context : Nat
  pin : Nat
  pinState : Nat
  deriving DecidableEq

/-- A zeroed slot, as produced by the constructors via `memset(_, EVENT_NONE, _)`. -/
def emptyEvent : Event :=
  ⟨EventType.none, 0, 0, 0, 0, 0, 0, 0, 0⟩

/-- Externally visible side effects of the scheduler: `digitalWrite(pin, value)`
and a callback invocation `callback(context)`. -/
inductive Effect where
  | digitalWrite (pin : Nat) (value : Nat)
  | callbackCall (callback : Nat) (context : Nat)
  deriving DecidableEq

/-- The scheduler state: the `_events` array. Its length is the immutable
capacity `_numberOfEvents`. -/
structure TimerState where
  events : List Event
  deriving DecidableEq

/-- A freshly constructed scheduler of capacity `n`: all slots zeroed. -/
def freshTimer (n : Nat) : TimerState :=
  ⟨List.replicate n emptyEvent⟩

/-- Write slot `i` of the event array through `f`; out-of-range writes are
impossible in the source (indices come from `findFreeEventIndex`). -/
def listUpdate (l : List Event) (i : Nat) (f : Event → Event) : List Event :=
  match l, i with
  | [], _ => []
  | e :: rest, 0 => f e :: rest
  | e :: rest, j + 1 => e :: listUpdate rest j f

/-- The scan loop of `Timer::findFreeEventIndex`, carrying the running index. -/
def findFreeLoop (l : List Event) (i : Nat) : Int :=
  match l with
  | [] => NO_TIMER_AVAILABLE
  | e :: rest =>
    if e.eventType = EventType.none then (i : Int) else findFreeLoop rest (i + 1)

/-- Function `Timer::findFreeEventIndex`: index of the first slot whose type is
`EVENT_NONE`, or `NO_TIMER_AVAILABLE` when every slot is occupied. -/
def findFreeEventIndex (l : List Event) : Int :=
  findFreeLoop l 0

/-- Function `Timer::every(period, callback, repeatCount, context)`: claim the first free
slot, fill it as an `EVENT_EVERY` slot and return its index; return
`NO_TIMER_AVAILABLE` untouched when no slot is free. `now` is the value of the
external clock `millis()` at the call. -/
def Timer.every (t : TimerState) (now period callback : Nat) (repeatCount : Int)
    (context : Nat) : Int × TimerState × List Effect :=
  let i := findFreeEventIndex t.events
  if i = NO_TIMER_AVAILABLE then (NO_TIMER_AVAILABLE, t, [])
  else
    (i,
      ⟨listUpdate t.events i.toNat fun e =>
        { e with
          eventType := EventType.every
          period := period
          repeatCount := repeatCount
          callback := callback
          lastEventTime := now
          count := 0
          context := context }⟩,
      [])

/-- Three-argument `Timer::every(period, callback, context)`: delegates with
`repeatCount = -1` (forever). -/
def Timer.every3 (t : TimerState) (now period callback context : Nat) :
    Int × TimerState × List Effect :=
  Timer.every t now period callback (-1) context

/-- Function `Timer::after(period, callback, context)`: delegates to `every` with
`repeatCount = 1`. -/
def Timer.after (t : TimerState) (now period callback context : Nat) :
    Int × TimerState × List Effect :=
  Timer.every t now period callback 1 context

/-- Function `Timer::oscillate(pin, period, startingValue, repeatCount)`: claim the first
free slot, fill it as an `EVENT_OSCILLATE` slot, write `startingValue` to the
pin, and store `repeatCount * 2` (full cycles, not transitions). -/
def Timer.oscillate (t : TimerState) (now pin period startingValue : Nat)
    (repeatCount : Int) : Int × TimerState × List Effect :=
  let i := findFreeEventIndex t.events
  if i = NO_TIMER_AVAILABLE then (NO_TIMER_AVAILABLE, t, [])
  else
    (i,
      ⟨listUpdate t.events i.toNat fun e =>
        { e with
          eventType := EventType.oscillate
          pin := pin
          period := period
          pinState := startingValue
          repeatCount := repeatCount * 2
          lastEventTime := now
          count := 0
          context := 0
          callback := 0 }⟩,
      [Effect.digitalWrite pin startingValue])

/-- Three-argument convenience `Timer::oscillate(pin, period, startingValue)`:
delegates with `repeatCount = -1` (forever). -/
def Timer.oscillate3 (t : TimerState) (now pin period startingValue : Nat) :
    Int × TimerState × List Effect :=
  Timer.oscillate t now pin period startingValue (-1)

/-- Function `Timer::pulse(pin, period, startingValue)`: delegates to `oscillate` with
`repeatCount = 1` (once). -/
def Timer.pulse (t : TimerState) (now pin period startingValue : Nat) :
    Int × TimerState × List Effect :=
  Timer.oscillate t now pin period startingValue 1

/-- Function `Timer::pulseImmediate(pin, period, pulseValue)`: register through
`oscillate` with repeat count 1, then overwrite the stored repeat count with 1
when the returned id is a valid index. -/
def Timer.pulseImmediate (t : TimerState) (now pin period pulseValue : Nat) :
    Int × TimerState × List Effect :=
  let r := Timer.oscillate t now pin period pulseValue 1
  if 0 ≤ r.1 ∧ r.1 < (t.events.length : Int) then
    (r.1, ⟨listUpdate r.2.1.events r.1.toNat fun e => { e with repeatCount := 1 }⟩, r.2.2)
  else r

/-- Function `Timer::stop(id)`: when `id` is in range, force the slot type to
`EVENT_NONE` and return `TIMER_NOT_AN_EVENT`; otherwise return `id` unchanged. -/
def Timer.stop (t : TimerState) (id : Int) : Int × TimerState :=
  if 0 ≤ id ∧ id < (t.events.length : Int) then
    (TIMER_NOT_AN_EVENT,
      ⟨listUpdate t.events id.toNat fun e => { e with eventType := EventType.none }⟩)
  else (id, t)

/-- Logical negation of a `uint8_t`, as applied by `!pinState` when an
oscillation slot toggles. -/
def toggle (v : Nat) : Nat :=
  if v = 0 then 1 else 0

/-- Wraparound-safe unsigned 32-bit subtraction `a - b`, total on `Nat`. -/
def usub32 (a b : Nat) : Nat :=
  (a + (U32 - b % U32)) % U32

/-- Modelled from the spec: the elapsed-time computation of `Event::update`
lives in `Event.cpp`, which is not among the source files. Spec section 4.1:
compute `elapsed = now() - lastEventTime` using wraparound-safe unsigned
subtraction. -/
def Event.elapsed (e : Event) (now : Nat) : Nat :=
  usub32 now e.lastEventTime

/-- Modelled from the spec: `Event::update` lives in `Event.cpp`, which is not
among the source files. It follows the dispatch algorithm of spec section 4.1:
when the slot is due (`elapsed ≥ period`), rebase `lastEventTime`, fire the
action of the slot kind, increment `count`, then decrement a positive
`repeatCount` and retire the slot when it reaches 0; a negative `repeatCount`
is left unchanged; a slot already at `repeatCount = 0` on entry to the due
branch is retired without firing. -/
def Event.update (e : Event) (now : Nat) : Event × List Effect :=
  if e.elapsed now < e.period then (e, [])
  else if e.repeatCount = 0 then ({ e with eventType := EventType.none }, [])
  else
    let fired : Event × List Effect :=
      match e.eventType with
      | EventType.every =>
        ({ e with lastEventTime := now, count := e.count + 1 },
          if e.callback ≠ 0 then [Effect.callbackCall e.callback e.context] else [])
      | EventType.oscillate =>
        ({ e with lastEventTime := now, count := e.count + 1, pinState := toggle e.pinState },
          [Effect.digitalWrite e.pin (toggle e.pinState)])
      | EventType.none => (e, [])
    if 0 < fired.1.repeatCount then
      ({ fired.1 with
          repeatCount := fired.1.repeatCount - 1
          eventType :=
            if fired.1.repeatCount - 1 = 0 then EventType.none else fired.1.eventType },
        fired.2)
    else fired

/-- The loop body of `Timer::update`: visit every slot in index order, calling
`Event.update` on the occupied ones, and concatenate the emitted actions. -/
def updateSlots (l : List Event) (now : Nat) : List Event × List Effect :=
  match l with
  | [] => ([], [])
  | e :: rest =>
    let r := if e.eventType ≠ EventType.none then Event.update e now else (e, [])
    let rr := updateSlots rest now
    (r.1 :: rr.1, r.2 ++ rr.2)

/-- Function `Timer::update`: one dispatch pass over the whole event table at
clock value `now`. -/
def Timer.update (t : TimerState) (now : Nat) : TimerState × List Effect :=
  (⟨(updateSlots t.events now).1⟩, (updateSlots t.events now).2)

/-- Storage strategy of a constructed scheduler: the default constructor uses a
static array, the sized constructor a single `malloc` heap block. -/
inductive Storage where
  | staticArr
  | heap
  deriving DecidableEq

/-- Construction bookkeeping of a scheduler: its `_numberOfEvents` and where
its `_events` storage came from. -/
structure TimerAlloc where
  numberOfEvents : Nat
  storage : Storage
  deriving DecidableEq

/-- Default constructor `Timer::Timer(void)`: capacity `defaultN`
(`DEFAULT_NUMBER_OF_EVENTS`, a compile-time constant declared in `Timer.h`),
static storage. -/
def Timer.mkDefault (defaultN : Nat) : TimerAlloc :=
  ⟨defaultN, Storage.staticArr⟩

/-- Sized constructor `Timer::Timer(byte numberOfEvents)`: capacity `n`,
storage from a single `malloc`. -/
def Timer.mkSized (n : Nat) : TimerAlloc :=
  ⟨n, Storage.heap⟩

/-- Destructor `Timer::~Timer`: calls `free(_events)` exactly when
`_numberOfEvents != DEFAULT_NUMBER_OF_EVENTS`. -/
def Timer.destructorFrees (defaultN : Nat) (t : TimerAlloc) : Bool :=
  decide (t.numberOfEvents ≠ defaultN)

/-- A registration call together with its arguments, used to reason about
arbitrary sequences of registrations. -/
inductive RegOp where
  | every (now period callback : Nat) (repeatCount : Int) (context : Nat)
  | every3 (now period callback context : Nat)
  | after (now period callback context : Nat)
  | oscillate (now pin period startingValue : Nat) (repeatCount : Int)
  | oscillate3 (now pin period startingValue : Nat)
  | pulse (now pin period startingValue : Nat)
  | pulseImmediate (now pin period pulseValue : Nat)
  deriving DecidableEq

/-- Apply one registration call to a scheduler state. -/
def applyReg (t : TimerState) : RegOp → Int × TimerState × List Effect
  | RegOp.every now period cb rc ctx => Timer.every t now period cb rc ctx
  | RegOp.every3 now period cb ctx => Timer.every3 t now period cb ctx
  | RegOp.after now period cb ctx => Timer.after t now period cb ctx
  | RegOp.oscillate now pin period sv rc => Timer.oscillate t now pin period sv rc
  | RegOp.oscillate3 now pin period sv => Timer.oscillate3 t now pin period sv
  | RegOp.pulse now pin period sv => Timer.pulse t now pin period sv
  | RegOp.pulseImmediate now pin period pv => Timer.pulseImmediate t now pin period pv

/-- Apply a sequence of registration calls, collecting the returned ids. -/
def applyRegs (t : TimerState) : List RegOp → List Int × TimerState
  | [] => ([], t)
  | op :: ops =>
    let r := applyReg t op
    let rest := applyRegs r.2.1 ops
    (r.1 :: rest.1, rest.2)

/-- Decide whether slot `j` of the table is free (`EVENT_NONE`); out-of-range
indices count as not free. -/
def slotFreeB (t : TimerState) (j : Nat) : Bool :=
  ((t.events.get? j).map fun e => decide (e.eventType = EventType.none)).getD false

/-- Number of free slots in the table. -/
def countFree (t : TimerState) : Nat :=
  t.events.countP fun e => decide (e.eventType = EventType.none)

/-- Index `r` is the lowest-indexed free slot of `t`: in range, free, and every
lower index is occupied. -/
def isLeastFree (t : TimerState) (r : Int) : Prop :=
  0 ≤ r ∧ r < (t.events.length : Int) ∧ slotFreeB t r.toNat = true ∧
    ∀ j : Nat, j < r.toNat → slotFreeB t j = false

instance (t : TimerState) (r : Int) : Decidable (isLeastFree t r) := by
  unfold isLeastFree
  infer_instance

theorem listUpdate_length (l : List Event) (i : Nat) (f : Event → Event) :
    (listUpdate l i f).length = l.length := by
  induction l generalizing i with
  | nil => rfl
  | cons e rest ih =>
    cases i with
    | zero => rfl
    | succ j => simpa [listUpdate] using ih j

theorem listUpdate_get? (l : List Event) (i : Nat) (f : Event → Event) (j : Nat) :
    (listUpdate l i f).get? j = if j = i then (l.get? j).map f else l.get? j := by
  induction l generalizing i j with
  | nil => simp [listUpdate]
  | cons e rest ih =>
    cases i with
    | zero =>
      cases j with
      | zero => simp [listUpdate]
      | succ j => simp [listUpdate]
    | succ i =>
      cases j with
      | zero => simp [listUpdate]
      | succ j =>
        simp only [listUpdate, List.get?_cons_succ, ih i j]
        by_cases h : j = i <;> simp [h]

theorem countP_listUpdate (p : Event → Bool) (l : List Event) (i : Nat)
    (f : Event → Event) (e : Event) (h : l.get? i = some e) :
    (listUpdate l i f).countP p + (if p e then 1 else 0)
      = l.countP p + (if p (f e) then 1 else 0) := by
  induction l generalizing i with
  | nil => simp at h
  | cons a rest ih =>
    cases i with
    | zero =>
      simp only [List.get?_cons_zero, Option.some.injEq] at h
      subst h
      simp only [listUpdate, List.countP_cons]
      omega
    | succ i =>
      simp only [List.get?_cons_succ] at h
      have := ih i h
      simp only [listUpdate, List.countP_cons]
      omega

theorem findFreeLoop_spec (l : List Event) (i : Nat) :
    (findFreeLoop l i = NO_TIMER_AVAILABLE ∧ ∀ e ∈ l, e.eventType ≠ EventType.none)
    ∨ ∃ k : Nat, findFreeLoop l i = ((i + k : Nat) : Int) ∧ k < l.length
        ∧ (∃ e, l.get? k = some e ∧ e.eventType = EventType.none)
        ∧ ∀ j e, j < k → l.get? j = some e → e.eventType ≠ EventType.none := by
  induction l generalizing i with
  | nil => left; exact ⟨rfl, by simp⟩
  | cons a rest ih =>
    by_cases ha : a.eventType = EventType.none
    · right
      refine ⟨0, ?_, by simp, ⟨a, by simp, ha⟩, by omega⟩
      simp [findFreeLoop, ha]
    · rcases ih (i + 1) with ⟨hnone, hall⟩ | ⟨k, hk, hlen, ⟨e, hget, hfree⟩, hocc⟩
      · left
        refine ⟨by simpa [findFreeLoop, ha] using hnone, ?_⟩
        intro e he
        rcases List.mem_cons.mp he with rfl | he
        · exact ha
        · exact hall e he
      · right
        refine ⟨k + 1, ?_, by simpa using hlen, ⟨e, by simpa using hget, hfree⟩, ?_⟩
        · simp only [findFreeLoop, ha, if_false]
          rw [hk]; congr 1; omega
        · intro j e' hj hget'
          cases j with
          | zero =>
            simp only [List.get?_cons_zero, Option.some.injEq] at hget'
            subst hget'; exact ha
          | succ j =>
            simp only [List.get?_cons_succ] at hget'
            exact hocc j e' (by omega) hget'

theorem findFreeEventIndex_none_iff (l : List Event) :
    findFreeEventIndex l = NO_TIMER_AVAILABLE ↔ ∀ e ∈ l, e.eventType ≠ EventType.none := by
  rcases findFreeLoop_spec l 0 with ⟨h, hall⟩ | ⟨k, hk, hlen, ⟨e, hget, hfree⟩, hocc⟩
  · exact ⟨fun _ => hall, fun _ => h⟩
  · constructor
    · intro h
      rw [findFreeEventIndex] at h
      rw [h] at hk
      simp [NO_TIMER_AVAILABLE] at hk
    · intro hall
      exact absurd hfree (hall e (List.get?_mem hget))

theorem findFreeEventIndex_success (l : List Event)
    (h : findFreeEventIndex l ≠ NO_TIMER_AVAILABLE) :
    0 ≤ findFreeEventIndex l ∧ findFreeEventIndex l < (l.length : Int)
      ∧ (∃ e, l.get? (findFreeEventIndex l).toNat = some e ∧ e.eventType = EventType.none)
      ∧ ∀ j e, j < (findFreeEventIndex l).toNat → l.get? j = some e →
          e.eventType ≠ EventType.none := by
  rcases findFreeLoop_spec l 0 with ⟨h0, _⟩ | ⟨k, hk, hlen, ⟨e, hget, hfree⟩, hocc⟩
  · exact absurd h0 h
  · rw [findFreeEventIndex] at h ⊢
    rw [hk]
    simp only [Nat.zero_add] at hk ⊢
    refine ⟨by omega, by exact_mod_cast hlen, ⟨e, by simpa using hget, hfree⟩, ?_⟩
    intro j e' hj hget'
    exact hocc j e' (by simpa using hj) hget'

theorem listUpdate_out_of_range (l : List Event) (i : Nat) (f : Event → Event)
    (h : l.length ≤ i) : listUpdate l i f = l := by
  induction l generalizing i with
  | nil => rfl
  | cons e rest ih =>
    cases i with
    | zero => simp at h
    | succ j => simp only [listUpdate, List.cons.injEq, true_and]; exact ih j (by simpa using h)

theorem listUpdate_getElem? (l : List Event) (i : Nat) (f : Event → Event) (j : Nat) :
    (listUpdate l i f)[j]? = if j = i then (l[j]?).map f else l[j]? := by
  simpa [← List.get?_eq_getElem?] using listUpdate_get? l i f j

theorem claim_spec (t : TimerState) (f : Event → Event)
    (hf : ∀ e, (f e).eventType ≠ EventType.none)
    (h : findFreeEventIndex t.events ≠ NO_TIMER_AVAILABLE) :
    (⟨listUpdate t.events (findFreeEventIndex t.events).toNat f⟩ : TimerState).events.length
        = t.events.length
    ∧ (∀ j : Nat,
        slotFreeB ⟨listUpdate t.events (findFreeEventIndex t.events).toNat f⟩ j
          = if (j : Int) = findFreeEventIndex t.events then false else slotFreeB t j)
    ∧ countFree ⟨listUpdate t.events (findFreeEventIndex t.events).toNat f⟩ + 1
        = countFree t := by
  obtain ⟨hge, hlt, ⟨e, hget, hfree⟩, _⟩ := findFreeEventIndex_success t.events h
  rw [List.get?_eq_getElem?] at hget
  refine ⟨listUpdate_length _ _ _, ?_, ?_⟩
  · intro j
    by_cases hj : (j : Int) = findFreeEventIndex t.events
    · rw [if_pos hj]
      have hjn : j = (findFreeEventIndex t.events).toNat := by omega
      subst hjn
      simp [slotFreeB, listUpdate_getElem?, hget, hf e]
    · rw [if_neg hj]
      have hjn : j ≠ (findFreeEventIndex t.events).toNat := by omega
      simp [slotFreeB, listUpdate_getElem?, hjn]
  · have hcp := countP_listUpdate (fun e => decide (e.eventType = EventType.none))
      t.events (findFreeEventIndex t.events).toNat f e (by
        rw [List.get?_eq_getElem?]; exact hget)
    simp only [hfree, decide_eq_true_eq, if_true] at hcp
    rw [if_neg (hf e)] at hcp
    simp only [countFree]
    omega

theorem preserve_spec (t : TimerState) (i : Nat) (f : Event → Event)
    (hf : ∀ e, (f e).eventType = e.eventType) :
    (∀ j : Nat, slotFreeB ⟨listUpdate t.events i f⟩ j = slotFreeB t j)
    ∧ countFree ⟨listUpdate t.events i f⟩ = countFree t := by
  constructor
  · intro j
    by_cases hj : j = i
    · subst hj
      cases hg : t.events[j]? with
      | none => simp [slotFreeB, List.get?_eq_getElem?, listUpdate_getElem?, hg]
      | some e => simp [slotFreeB, List.get?_eq_getElem?, listUpdate_getElem?, hg, hf e]
    · simp [slotFreeB, List.get?_eq_getElem?, listUpdate_getElem?, hj]
  · cases hg : t.events.get? i with
    | none =>
      have hlen : t.events.length ≤ i := by
        by_contra hcon
        have := List.get?_eq_get (show i < t.events.length by omega)
        rw [hg] at this
        exact Option.noConfusion this
      rw [listUpdate_out_of_range t.events i f hlen]
    | some e =>
      have hcp := countP_listUpdate (fun e => decide (e.eventType = EventType.none))
        t.events i f e hg
      by_cases he : e.eventType = EventType.none
      · have hfe : (f e).eventType = EventType.none := by rw [hf e]; exact he
        simp only [he, hfe, decide_eq_true_eq, if_pos rfl] at hcp
        simp only [countFree]
        omega
      · have hfe : (f e).eventType ≠ EventType.none := by rw [hf e]; exact he
        simp only [decide_eq_true_eq] at hcp
        rw [if_neg he, if_neg hfe] at hcp
        simp only [countFree]
        omega

theorem applyReg_fail (t : TimerState) (op : RegOp)
    (h : findFreeEventIndex t.events = NO_TIMER_AVAILABLE) :
    applyReg t op = (NO_TIMER_AVAILABLE, t, []) := by
  cases op <;>
    simp [applyReg, Timer.every, Timer.every3, Timer.after, Timer.oscillate,
      Timer.oscillate3, Timer.pulse, Timer.pulseImmediate, h, NO_TIMER_AVAILABLE]

theorem applyReg_success (t : TimerState) (op : RegOp)
    (h : findFreeEventIndex t.events ≠ NO_TIMER_AVAILABLE) :
    (applyReg t op).1 = findFreeEventIndex t.events
    ∧ (applyReg t op).2.1.events.length = t.events.length
    ∧ (∀ j : Nat, slotFreeB (applyReg t op).2.1 j
        = if (j : Int) = findFreeEventIndex t.events then false else slotFreeB t j)
    ∧ countFree (applyReg t op).2.1 + 1 = countFree t := by
  have hge := (findFreeEventIndex_success t.events h).1
  have hlt := (findFreeEventIndex_success t.events h).2.1
  cases op with
  | every now period cb rc ctx =>
    have hc := claim_spec t (fun e => { e with eventType := EventType.every, period := period, repeatCount := rc, callback := cb, lastEventTime := now, count := 0, context := ctx }) (fun e => by simp) h
    simp only [applyReg, Timer.every, if_neg h]
    exact ⟨trivial, hc.1, hc.2.1, hc.2.2⟩
  | every3 now period cb ctx =>
    have hc := claim_spec t (fun e => { e with eventType := EventType.every, period := period, repeatCount := (-1 : Int), callback := cb, lastEventTime := now, count := 0, context := ctx }) (fun e => by simp) h
    simp only [applyReg, Timer.every3, Timer.every, if_neg h]
    exact ⟨trivial, hc.1, hc.2.1, hc.2.2⟩
  | after now period cb ctx =>
    have hc := claim_spec t (fun e => { e with eventType := EventType.every, period := period, repeatCount := (1 : Int), callback := cb, lastEventTime := now, count := 0, context := ctx }) (fun e => by simp) h
    simp only [applyReg, Timer.after, Timer.every, if_neg h]
    exact ⟨trivial, hc.1, hc.2.1, hc.2.2⟩
  | oscillate now pin period sv rc =>
    have hc := claim_spec t (fun e => { e with eventType := EventType.oscillate, pin := pin, period := period, pinState := sv, repeatCount := rc * 2, lastEventTime := now, count := 0, context := 0, callback := 0 }) (fun e => by simp) h
    simp only [applyReg, Timer.oscillate, if_neg h]
    exact ⟨trivial, hc.1, hc.2.1, hc.2.2⟩
  | oscillate3 now pin period sv =>
    have hc := claim_spec t (fun e => { e with eventType := EventType.oscillate, pin := pin, period := period, pinState := sv, repeatCount := (-1 : Int) * 2, lastEventTime := now, count := 0, context := 0, callback := 0 }) (fun e => by simp) h
    simp only [applyReg, Timer.oscillate3, Timer.oscillate, if_neg h]
    exact ⟨trivial, hc.1, hc.2.1, hc.2.2⟩
  | pulse now pin period sv =>
    have hc := claim_spec t (fun e => { e with eventType := EventType.oscillate, pin := pin, period := period, pinState := sv, repeatCount := (1 : Int) * 2, lastEventTime := now, count := 0, context := 0, callback := 0 }) (fun e => by simp) h
    simp only [applyReg, Timer.pulse, Timer.oscillate, if_neg h]
    exact ⟨trivial, hc.1, hc.2.1, hc.2.2⟩
  | pulseImmediate now pin period pv =>
    have hc := claim_spec t (fun e => { e with eventType := EventType.oscillate, pin := pin, period := period, pinState := pv, repeatCount := (1 : Int) * 2, lastEventTime := now, count := 0, context := 0, callback := 0 }) (fun e => by simp) h
    have hp := preserve_spec ⟨listUpdate t.events (findFreeEventIndex t.events).toNat (fun e => { e with eventType := EventType.oscillate, pin := pin, period := period, pinState := pv, repeatCount := (1 : Int) * 2, lastEventTime := now, count := 0, context := 0, callback := 0 })⟩ (findFreeEventIndex t.events).toNat (fun e => { e with repeatCount := (1 : Int) }) (fun e => rfl)
    simp only [applyReg, Timer.pulseImmediate, Timer.oscillate, if_neg h]
    rw [if_pos ⟨hge, hlt⟩]
    refine ⟨rfl, ?_, ?_, ?_⟩
    · rw [listUpdate_length]
      exact hc.1
    · intro j
      exact (hp.1 j).trans (hc.2.1 j)
    · rw [hp.2]
      exact hc.2.2

theorem applyRegs_cons (t : TimerState) (op : RegOp) (ops : List RegOp) :
    applyRegs t (op :: ops)
      = ((applyReg t op).1 :: (applyRegs (applyReg t op).2.1 ops).1,
          (applyRegs (applyReg t op).2.1 ops).2) := rfl

theorem applyReg_length (t : TimerState) (op : RegOp) :
    (applyReg t op).2.1.events.length = t.events.length := by
  by_cases hff : findFreeEventIndex t.events = NO_TIMER_AVAILABLE
  · rw [applyReg_fail t op hff]
  · exact (applyReg_success t op hff).2.1

theorem applyReg_free_mono (t : TimerState) (op : RegOp) (j : Nat)
    (h : slotFreeB (applyReg t op).2.1 j = true) : slotFreeB t j = true := by
  by_cases hff : findFreeEventIndex t.events = NO_TIMER_AVAILABLE
  · rw [applyReg_fail t op hff] at h
    exact h
  · have hs := (applyReg_success t op hff).2.2.1 j
    rw [hs] at h
    by_cases hj : (j : Int) = findFreeEventIndex t.events
    · rw [if_pos hj] at h
      exact absurd h (by simp)
    · rw [if_neg hj] at h
      exact h

theorem applyRegs_free_mono (t : TimerState) (ops : List RegOp) (j : Nat)
    (h : slotFreeB (applyRegs t ops).2 j = true) : slotFreeB t j = true := by
  induction ops generalizing t with
  | nil => exact h
  | cons op ops ih =>
    rw [applyRegs_cons] at h
    exact applyReg_free_mono t op j (ih (applyReg t op).2.1 h)

theorem slotFree_of_success (t : TimerState)
    (h : findFreeEventIndex t.events ≠ NO_TIMER_AVAILABLE) :
    slotFreeB t (findFreeEventIndex t.events).toNat = true := by
  obtain ⟨_, _, ⟨e, hget, hfree⟩, _⟩ := findFreeEventIndex_success t.events h
  rw [List.get?_eq_getElem?] at hget
  simp [slotFreeB, List.get?_eq_getElem?, hget, hfree]

theorem applyRegs_mem_spec (t : TimerState) (ops : List RegOp) :
    ∀ r ∈ (applyRegs t ops).1, r ≠ NO_TIMER_AVAILABLE →
      0 ≤ r ∧ r < (t.events.length : Int) ∧ slotFreeB t r.toNat = true := by
  induction ops generalizing t with
  | nil => simp [applyRegs]
  | cons op ops ih =>
    intro r hr hne
    rw [applyRegs_cons] at hr
    rcases List.mem_cons.mp hr with rfl | hmem
    · by_cases hff : findFreeEventIndex t.events = NO_TIMER_AVAILABLE
      · rw [applyReg_fail t op hff] at hne
        exact absurd rfl hne
      · have h1 := (applyReg_success t op hff).1
        obtain ⟨hge, hlt, _, _⟩ := findFreeEventIndex_success t.events hff
        rw [h1]
        exact ⟨hge, hlt, slotFree_of_success t hff⟩
    · obtain ⟨hge, hlt, hfree⟩ := ih (applyReg t op).2.1 r hmem hne
      rw [applyReg_length t op] at hlt
      exact ⟨hge, hlt, applyReg_free_mono t op r.toNat hfree⟩

theorem applyRegs_pairwise (t : TimerState) (ops : List RegOp)
    (h : ∀ r ∈ (applyRegs t ops).1, r ≠ NO_TIMER_AVAILABLE) :
    (applyRegs t ops).1.Pairwise (fun a b => a ≠ b) := by
  induction ops generalizing t with
  | nil => simp [applyRegs]
  | cons op ops ih =>
    rw [applyRegs_cons]
    rw [applyRegs_cons] at h
    have hhead := h (applyReg t op).1 (List.mem_cons_self _ _)
    by_cases hff : findFreeEventIndex t.events = NO_TIMER_AVAILABLE
    · rw [applyReg_fail t op hff] at hhead
      exact absurd rfl hhead
    · rw [List.pairwise_cons]
      constructor
      · intro b hb
        have hbne := h b (List.mem_cons_of_mem _ hb)
        obtain ⟨hbge, _, hbfree⟩ :=
          applyRegs_mem_spec (applyReg t op).2.1 ops b hb hbne
        have h1 := (applyReg_success t op hff).1
        have hocc := (applyReg_success t op hff).2.2.1 b.toNat
        obtain ⟨hge, _, _, _⟩ := findFreeEventIndex_success t.events hff
        intro hcon
        rw [hocc] at hbfree
        have hbeq : (b.toNat : Int) = findFreeEventIndex t.events := by
          rw [Int.toNat_of_nonneg hbge, ← hcon, h1]
        rw [if_pos hbeq] at hbfree
        exact absurd hbfree (by simp)
      · exact ih (applyReg t op).2.1 fun r hr => h r (List.mem_cons_of_mem _ hr)

theorem applyRegs_countFree (t : TimerState) (ops : List RegOp)
    (h : ∀ r ∈ (applyRegs t ops).1, r ≠ NO_TIMER_AVAILABLE) :
    countFree (applyRegs t ops).2 + ops.length = countFree t := by
  induction ops generalizing t with
  | nil => simp [applyRegs]
  | cons op ops ih =>
    rw [applyRegs_cons]
    rw [applyRegs_cons] at h
    have hhead := h (applyReg t op).1 (List.mem_cons_self _ _)
    by_cases hff : findFreeEventIndex t.events = NO_TIMER_AVAILABLE
    · rw [applyReg_fail t op hff] at hhead
      exact absurd rfl hhead
    · have hcount := (applyReg_success t op hff).2.2.2
      have hrec := ih (applyReg t op).2.1 fun r hr => h r (List.mem_cons_of_mem _ hr)
      simp only [List.length_cons]
      omega

theorem countFree_fresh (n : Nat) : countFree (freshTimer n) = n := by
  induction n with
  | zero => rfl
  | succ n ih =>
    have hstep : countFree (freshTimer (n + 1)) = countFree (freshTimer n) + 1 := by
      simp [freshTimer, countFree, List.replicate_succ, List.countP_cons, emptyEvent]
    omega

theorem freshTimer_length (n : Nat) : (freshTimer n).events.length = n := by
  simp [freshTimer]

theorem full_of_countFree_zero (t : TimerState) (h : countFree t = 0) :
    findFreeEventIndex t.events = NO_TIMER_AVAILABLE := by
  rw [findFreeEventIndex_none_iff]
  intro e he
  have := List.countP_eq_zero.mp h e he
  simpa using this

theorem isLeastFree_of_success (s : TimerState)
    (h : findFreeEventIndex s.events ≠ NO_TIMER_AVAILABLE) :
    isLeastFree s (findFreeEventIndex s.events) := by
  obtain ⟨hge, hlt, _, hocc⟩ := findFreeEventIndex_success s.events h
  refine ⟨hge, hlt, slotFree_of_success s h, ?_⟩
  intro j hj
  have hjlen : j < s.events.length := by omega
  cases hg : s.events.get? j with
  | none =>
    rw [List.get?_eq_get hjlen] at hg
    exact Option.noConfusion hg
  | some e =>
    have hne := hocc j e hj hg
    rw [List.get?_eq_getElem?] at hg
    simp [slotFreeB, List.get?_eq_getElem?, hg, hne]

/-- Claim C1: starting from a fresh scheduler of capacity `N`, a sequence of
successful registrations (any mix of every/after/oscillate/pulse/pulseImmediate,
with no intervening stop or update) returns pairwise-distinct indices in the
range `[0, N-1]`, each successful registration claims the lowest-indexed free
slot, and once `N` registrations have succeeded the next registration returns
the negative sentinel `NO_TIMER_AVAILABLE` and leaves the state unchanged. -/
theorem c1_registration_allocation (N : Nat) (ops : List RegOp)
    (hsucc : ∀ r ∈ (applyRegs (freshTimer N) ops).1, r ≠ NO_TIMER_AVAILABLE) :
    NO_TIMER_AVAILABLE < 0
    ∧ (applyRegs (freshTimer N) ops).1.Pairwise (fun a b => a ≠ b)
    ∧ (∀ r ∈ (applyRegs (freshTimer N) ops).1, 0 ≤ r ∧ r < (N : Int))
    ∧ (∀ (s : TimerState) (op : RegOp), (applyReg s op).1 ≠ NO_TIMER_AVAILABLE →
        (applyReg s op).1 = findFreeEventIndex s.events
          ∧ isLeastFree s ((applyReg s op).1))
    ∧ (ops.length = N → ∀ op : RegOp,
        applyReg (applyRegs (freshTimer N) ops).2 op
          = (NO_TIMER_AVAILABLE, (applyRegs (freshTimer N) ops).2, [])) := by
  refine ⟨by simp [NO_TIMER_AVAILABLE], applyRegs_pairwise _ _ hsucc, ?_, ?_, ?_⟩
  · intro r hr
    obtain ⟨hge, hlt, _⟩ :=
      applyRegs_mem_spec (freshTimer N) ops r hr (hsucc r hr)
    rw [freshTimer_length] at hlt
    exact ⟨hge, hlt⟩
  · intro s op hne
    have hff : findFreeEventIndex s.events ≠ NO_TIMER_AVAILABLE := by
      intro hcon
      rw [applyReg_fail s op hcon] at hne
      exact absurd rfl hne
    have h1 := (applyReg_success s op hff).1
    rw [h1]
    exact ⟨rfl, isLeastFree_of_success s hff⟩
  · intro hlen op
    have hcount := applyRegs_countFree (freshTimer N) ops hsucc
    rw [countFree_fresh, hlen] at hcount
    exact applyReg_fail _ op (full_of_countFree_zero _ (by omega))

theorem c1_registration_allocation_witness :
    (∀ r ∈ (applyRegs (freshTimer 2) [RegOp.every3 0 5 1 0, RegOp.pulse 0 7 3 1]).1,
        r ≠ NO_TIMER_AVAILABLE)
    ∧ (NO_TIMER_AVAILABLE < 0
      ∧ (applyRegs (freshTimer 2) [RegOp.every3 0 5 1 0, RegOp.pulse 0 7 3 1]).1.Pairwise
          (fun a b => a ≠ b)
      ∧ (∀ r ∈ (applyRegs (freshTimer 2) [RegOp.every3 0 5 1 0, RegOp.pulse 0 7 3 1]).1,
          0 ≤ r ∧ r < (2 : Int))
      ∧ (∀ (s : TimerState) (op : RegOp), (applyReg s op).1 ≠ NO_TIMER_AVAILABLE →
          (applyReg s op).1 = findFreeEventIndex s.events
            ∧ isLeastFree s ((applyReg s op).1))
      ∧ ([RegOp.every3 0 5 1 0, RegOp.pulse 0 7 3 1].length = 2 → ∀ op : RegOp,
          applyReg (applyRegs (freshTimer 2) [RegOp.every3 0 5 1 0, RegOp.pulse 0 7 3 1]).2 op
            = (NO_TIMER_AVAILABLE,
                (applyRegs (freshTimer 2) [RegOp.every3 0 5 1 0, RegOp.pulse 0 7 3 1]).2,
                []))) :=
  ⟨by decide, c1_registration_allocation 2 [RegOp.every3 0 5 1 0, RegOp.pulse 0 7 3 1]
    (by decide)⟩

/-- Claim C10: when no free slot exists, every registration operation returns
the `NO_TIMER_AVAILABLE` sentinel, writes no slot field, and emits no pin write
or other side effect: the result is exactly the unchanged state. -/
theorem c10_full_registration_noop (t : TimerState) (op : RegOp)
    (h : findFreeEventIndex t.events = NO_TIMER_AVAILABLE) :
    applyReg t op = (NO_TIMER_AVAILABLE, t, []) :=
  applyReg_fail t op h

theorem c10_full_registration_noop_witness :
    findFreeEventIndex
        (⟨[{ emptyEvent with eventType := EventType.every }]⟩ : TimerState).events
      = NO_TIMER_AVAILABLE
    ∧ applyReg (⟨[{ emptyEvent with eventType := EventType.every }]⟩ : TimerState)
        (RegOp.pulse 0 9 4 1)
      = (NO_TIMER_AVAILABLE, ⟨[{ emptyEvent with eventType := EventType.every }]⟩, []) :=
  ⟨by decide, c10_full_registration_noop _ _ (by decide)⟩

/-- Claim C2: for every id in range `[0, capacity-1]`, `stop id` forces that
slot to `EVENT_NONE` whatever its prior state, returns the "not an active
event" sentinel, and leaves every other slot untouched; for every out-of-range
id — in particular the negative `NO_TIMER_AVAILABLE` sentinel — `stop id`
returns the id unchanged and modifies no slot. -/
theorem c2_stop_semantics (t : TimerState) (id : Int) :
    (0 ≤ id → id < (t.events.length : Int) →
      (Timer.stop t id).1 = TIMER_NOT_AN_EVENT
      ∧ (Timer.stop t id).2.events.get? id.toNat
          = (t.events.get? id.toNat).map (fun e => { e with eventType := EventType.none })
      ∧ ∀ j : Nat, j ≠ id.toNat →
          (Timer.stop t id).2.events.get? j = t.events.get? j)
    ∧ (¬ (0 ≤ id ∧ id < (t.events.length : Int)) → Timer.stop t id = (id, t)) := by
  constructor
  · intro h1 h2
    simp only [Timer.stop, if_pos (And.intro h1 h2)]
    refine ⟨trivial, ?_, ?_⟩
    · rw [listUpdate_get?, if_pos rfl]
    · intro j hj
      rw [listUpdate_get?, if_neg hj]
  · intro h
    simp only [Timer.stop, if_neg h]

theorem c2_stop_semantics_witness :
    ((0 : Int) ≤ 1 → (1 : Int) < ((freshTimer 3).events.length : Int) →
      (Timer.stop (freshTimer 3) 1).1 = TIMER_NOT_AN_EVENT
      ∧ (Timer.stop (freshTimer 3) 1).2.events.get? (1 : Int).toNat
          = ((freshTimer 3).events.get? (1 : Int).toNat).map
              (fun e => { e with eventType := EventType.none })
      ∧ ∀ j : Nat, j ≠ (1 : Int).toNat →
          (Timer.stop (freshTimer 3) 1).2.events.get? j = (freshTimer 3).events.get? j)
    ∧ (¬ ((0 : Int) ≤ 1 ∧ (1 : Int) < ((freshTimer 3).events.length : Int)) →
        Timer.stop (freshTimer 3) 1 = (1, freshTimer 3)) :=
  c2_stop_semantics (freshTimer 3) 1

/-- Claim C3: every successful `oscillate pin period startingValue repeatCount`
immediately writes `startingValue` to the pin as its only registration-time
side effect, and the claimed slot stores kind `EVENT_OSCILLATE`,
`pinState = startingValue`, the given period, and the internal repeat count
`repeatCount * 2` (full cycles are two transitions). -/
theorem c3_oscillate_postcondition (t : TimerState) (now pin period sv : Nat)
    (rc : Int) (h : (Timer.oscillate t now pin period sv rc).1 ≠ NO_TIMER_AVAILABLE) :
    (Timer.oscillate t now pin period sv rc).2.2 = [Effect.digitalWrite pin sv]
    ∧ ∃ e, (Timer.oscillate t now pin period sv rc).2.1.events.get?
          ((Timer.oscillate t now pin period sv rc).1).toNat = some e
        ∧ e.eventType = EventType.oscillate
        ∧ e.pinState = sv
        ∧ e.period = period
        ∧ e.repeatCount = rc * 2 := by
  have hff : findFreeEventIndex t.events ≠ NO_TIMER_AVAILABLE := by
    intro hcon
    rw [show Timer.oscillate t now pin period sv rc = (NO_TIMER_AVAILABLE, t, []) by
      simp [Timer.oscillate, hcon]] at h
    exact absurd rfl h
  obtain ⟨_, _, ⟨e0, hget, _⟩, _⟩ := findFreeEventIndex_success t.events hff
  simp only [Timer.oscillate, if_neg hff]
  refine ⟨trivial, ?_⟩
  exact ⟨{ e0 with eventType := EventType.oscillate, pin := pin, period := period, pinState := sv, repeatCount := rc * 2, lastEventTime := now, count := 0, context := 0, callback := 0 }, by rw [listUpdate_get?, if_pos rfl, hget]; rfl, rfl, rfl, rfl, rfl⟩

theorem c3_oscillate_postcondition_witness :
    (Timer.oscillate (freshTimer 1) 0 9 50 1 3).1 ≠ NO_TIMER_AVAILABLE
    ∧ ((Timer.oscillate (freshTimer 1) 0 9 50 1 3).2.2 = [Effect.digitalWrite 9 1]
      ∧ ∃ e, (Timer.oscillate (freshTimer 1) 0 9 50 1 3).2.1.events.get?
            ((Timer.oscillate (freshTimer 1) 0 9 50 1 3).1).toNat = some e
          ∧ e.eventType = EventType.oscillate
          ∧ e.pinState = 1
          ∧ e.period = 50
          ∧ e.repeatCount = 3 * 2) :=
  ⟨by decide, c3_oscillate_postcondition (freshTimer 1) 0 9 50 1 3 (by decide)⟩

/-- Claim C5: `pulse pin period startingValue` returns the same result,
produces the same scheduler state, and emits the same pin side effect as
`oscillate pin period startingValue 1`. -/
theorem c5_pulse_is_oscillate_once (t : TimerState) (now pin period sv : Nat) :
    Timer.pulse t now pin period sv = Timer.oscillate t now pin period sv 1 :=
  rfl

/-- Claim C6: the three-argument `every period callback context` equals
`every period callback (-1) context` (unbounded), and
`after period callback context` equals `every period callback 1 context`
(single firing): same return value, same state, same effects. -/
theorem c6_convenience_overloads (t : TimerState) (now period cb ctx : Nat) :
    Timer.every3 t now period cb ctx = Timer.every t now period cb (-1) ctx
    ∧ Timer.after t now period cb ctx = Timer.every t now period cb 1 ctx :=
  ⟨rfl, rfl⟩

/-- Claim C7: the elapsed time of a slot is computed as `now - lastEventTime`
with unsigned modular subtraction, so a timer whose period has elapsed is
detected as due and fired even when the millisecond counter wraps from near
its maximum back to a small value between two update passes: with true elapsed
time `d` across the wrap, the computed elapsed equals `d` exactly. -/
theorem c7_wraparound_elapsed (e : Event) (d : Nat)
    (hL : e.lastEventTime < U32) (hd : d < U32)
    (hwrap : U32 ≤ e.lastEventTime + d) (hp : e.period ≤ d)
    (he : e.eventType = EventType.every) (hrc : e.repeatCount = -1) :
    Event.elapsed e ((e.lastEventTime + d) % U32) = d
    ∧ ¬ Event.elapsed e ((e.lastEventTime + d) % U32) < e.period
    ∧ (e.update ((e.lastEventTime + d) % U32)).1.lastEventTime
        = (e.lastEventTime + d) % U32 := by
  have hel : Event.elapsed e ((e.lastEventTime + d) % U32) = d := by
    simp only [Event.elapsed, usub32]
    simp only [U32] at hL hd hwrap ⊢
    omega
  refine ⟨hel, by omega, ?_⟩
  simp only [Event.update, hel]
  rw [if_neg (by omega)]
  rw [if_neg (by rw [hrc]; decide)]
  simp [he, hrc]

theorem c7_wraparound_elapsed_witness :
    ({ emptyEvent with eventType := EventType.every, lastEventTime := U32 - 5, period := 50, repeatCount := -1, callback := 3 } : Event).lastEventTime < U32
    ∧ 100 < U32
    ∧ U32 ≤ ({ emptyEvent with eventType := EventType.every, lastEventTime := U32 - 5, period := 50, repeatCount := -1, callback := 3 } : Event).lastEventTime + 100
    ∧ ({ emptyEvent with eventType := EventType.every, lastEventTime := U32 - 5, period := 50, repeatCount := -1, callback := 3 } : Event).period ≤ 100
    ∧ (Event.elapsed { emptyEvent with eventType := EventType.every, lastEventTime := U32 - 5, period := 50, repeatCount := -1, callback := 3 } ((({ emptyEvent with eventType := EventType.every, lastEventTime := U32 - 5, period := 50, repeatCount := -1, callback := 3 } : Event).lastEventTime + 100) % U32) = 100
      ∧ ¬ Event.elapsed { emptyEvent with eventType := EventType.every, lastEventTime := U32 - 5, period := 50, repeatCount := -1, callback := 3 } ((({ emptyEvent with eventType := EventType.every, lastEventTime := U32 - 5, period := 50, repeatCount := -1, callback := 3 } : Event).lastEventTime + 100) % U32) < ({ emptyEvent with eventType := EventType.every, lastEventTime := U32 - 5, period := 50, repeatCount := -1, callback := 3 } : Event).period
      ∧ (Event.update { emptyEvent with eventType := EventType.every, lastEventTime := U32 - 5, period := 50, repeatCount := -1, callback := 3 } ((({ emptyEvent with eventType := EventType.every, lastEventTime := U32 - 5, period := 50, repeatCount := -1, callback := 3 } : Event).lastEventTime + 100) % U32)).1.lastEventTime = (({ emptyEvent with eventType := EventType.every, lastEventTime := U32 - 5, period := 50, repeatCount := -1, callback := 3 } : Event).lastEventTime + 100) % U32) :=
  ⟨by decide, by decide, by decide, by decide,
    c7_wraparound_elapsed
      { emptyEvent with eventType := EventType.every, lastEventTime := U32 - 5, period := 50, repeatCount := -1, callback := 3 }
      100 (by decide) (by decide) (by decide) (by decide) rfl rfl⟩

/-- Claim C4: a successful `pulseImmediate pin period pulseValue` stores a
transition count of exactly 1 in the claimed slot (overriding the doubling done
by the oscillate machinery), writes `pulseValue` to the pin at call time, and
at the first due dispatch the slot flips the pin to the opposite value and is
retired (kind `EVENT_NONE`), after which an update pass performs no further
transition on it. -/
theorem c4_pulseImmediate_single_transition (t : TimerState)
    (now pin period pv : Nat)
    (h : (Timer.pulseImmediate t now pin period pv).1 ≠ NO_TIMER_AVAILABLE) :
    (Timer.pulseImmediate t now pin period pv).2.2 = [Effect.digitalWrite pin pv]
    ∧ ∃ e, (Timer.pulseImmediate t now pin period pv).2.1.events.get?
          ((Timer.pulseImmediate t now pin period pv).1).toNat = some e
        ∧ e.repeatCount = 1
        ∧ e.eventType = EventType.oscillate
        ∧ e.pinState = pv
        ∧ e.period = period
        ∧ e.pin = pin
        ∧ ∀ m : Nat, ¬ Event.elapsed e m < e.period →
            (e.update m).1.eventType = EventType.none
            ∧ (e.update m).2 = [Effect.digitalWrite pin (toggle pv)]
            ∧ ∀ m2 : Nat, updateSlots [(e.update m).1] m2 = ([(e.update m).1], []) := by
  have hff : findFreeEventIndex t.events ≠ NO_TIMER_AVAILABLE := by
    intro hcon
    rw [show Timer.pulseImmediate t now pin period pv = (NO_TIMER_AVAILABLE, t, []) by
      simp [Timer.pulseImmediate, Timer.oscillate, hcon, NO_TIMER_AVAILABLE]] at h
    exact absurd rfl h
  obtain ⟨hge, hlt, ⟨e0, hget, _⟩, _⟩ := findFreeEventIndex_success t.events hff
  simp only [Timer.pulseImmediate, Timer.oscillate, if_neg hff]
  rw [if_pos ⟨hge, hlt⟩]
  refine ⟨rfl, ?_⟩
  refine ⟨{ e0 with eventType := EventType.oscillate, pin := pin, period := period, pinState := pv, repeatCount := 1, lastEventTime := now, count := 0, context := 0, callback := 0 }, ?_, rfl, rfl, rfl, rfl, rfl, ?_⟩
  · rw [listUpdate_get?, if_pos rfl, listUpdate_get?, if_pos rfl, hget]
    rfl
  · intro m hdue
    refine ⟨?_, ?_, ?_⟩
    · simp only [Event.update]
      rw [if_neg hdue]
      norm_num
    · simp only [Event.update]
      rw [if_neg hdue]
      norm_num
    · intro m2
      have hnone : ((Event.update { e0 with eventType := EventType.oscillate, pin := pin, period := period, pinState := pv, repeatCount := 1, lastEventTime := now, count := 0, context := 0, callback := 0 } m).1).eventType = EventType.none := by
        simp only [Event.update]
        rw [if_neg hdue]
        norm_num
      simp [updateSlots, hnone]

theorem c4_pulseImmediate_single_transition_witness :
    (Timer.pulseImmediate (freshTimer 1) 0 9 5 1).1 ≠ NO_TIMER_AVAILABLE
    ∧ ((Timer.pulseImmediate (freshTimer 1) 0 9 5 1).2.2 = [Effect.digitalWrite 9 1]
      ∧ ∃ e, (Timer.pulseImmediate (freshTimer 1) 0 9 5 1).2.1.events.get?
            ((Timer.pulseImmediate (freshTimer 1) 0 9 5 1).1).toNat = some e
          ∧ e.repeatCount = 1
          ∧ e.eventType = EventType.oscillate
          ∧ e.pinState = 1
          ∧ e.period = 5
          ∧ e.pin = 9
          ∧ ∀ m : Nat, ¬ Event.elapsed e m < e.period →
              (e.update m).1.eventType = EventType.none
              ∧ (e.update m).2 = [Effect.digitalWrite 9 (toggle 1)]
              ∧ ∀ m2 : Nat, updateSlots [(e.update m).1] m2 = ([(e.update m).1], [])) :=
  ⟨by decide, c4_pulseImmediate_single_transition (freshTimer 1) 0 9 5 1 (by decide)⟩

theorem updateSlots_get? (l : List Event) (now : Nat) (j : Nat) :
    (updateSlots l now).1.get? j
      = (l.get? j).map fun e =>
          (if e.eventType ≠ EventType.none then Event.update e now else (e, [])).1 := by
  induction l generalizing j with
  | nil => simp [updateSlots]
  | cons a rest ih =>
    cases j with
    | zero => simp [updateSlots]
    | succ j => simpa [updateSlots] using ih j

theorem event_update_occupied_zero (e : Event) (now : Nat)
    (hocc : ((Event.update e now).1).eventType ≠ EventType.none)
    (hrc : ((Event.update e now).1).repeatCount = 0) :
    (Event.update e now).1 = e ∧ e.repeatCount = 0
      ∧ Event.elapsed e now < e.period := by
  by_cases hdue : Event.elapsed e now < e.period
  · simp only [Event.update, if_pos hdue] at hrc ⊢
    exact ⟨trivial, hrc, hdue⟩
  · exfalso
    simp only [Event.update, if_neg hdue] at hocc hrc
    by_cases h0 : e.repeatCount = 0
    · rw [if_pos h0] at hocc
      simp at hocc
    · rw [if_neg h0] at hocc hrc
      cases he : e.eventType with
      | none =>
        simp only [he] at hocc hrc
        by_cases hpos : (0 : Int) < e.repeatCount
        · rw [if_pos hpos] at hocc hrc
          simp only at hocc hrc
          rw [if_pos (by omega)] at hocc
          simp at hocc
        · rw [if_neg hpos] at hrc
          exact h0 hrc
      | every =>
        simp only [he] at hocc hrc
        by_cases hpos : (0 : Int) < e.repeatCount
        · rw [if_pos hpos] at hocc hrc
          simp only at hocc hrc
          rw [if_pos (by omega)] at hocc
          simp at hocc
        · rw [if_neg hpos] at hrc
          exact h0 hrc
      | oscillate =>
        simp only [he] at hocc hrc
        by_cases hpos : (0 : Int) < e.repeatCount
        · rw [if_pos hpos] at hocc hrc
          simp only at hocc hrc
          rw [if_pos (by omega)] at hocc
          simp at hocc
        · rw [if_neg hpos] at hrc
          exact h0 hrc

/-- Claim C8 is refuted at this input: starting from a fresh scheduler, a
registration with `repeatCount = 0` followed by one complete update pass in
which the slot is not yet due leaves an occupied slot (kind `EVENT_EVERY`)
whose repeat count is 0 after the pass finishes. -/
theorem c8_zero_repeat_counterexample :
    ∃ e, (Timer.update (Timer.every (freshTimer 1) 0 10 3 0 4).2.1 5).1.events.get? 0
        = some e
      ∧ e.eventType ≠ EventType.none
      ∧ e.repeatCount = 0 := by decide

/-- Claim C8 (amended): after a completed update pass, any slot still occupied
with repeat count 0 was already occupied with repeat count 0 before the pass
and was not yet due, so it fired nothing and was left untouched. In particular
a due slot never survives a pass occupied with repeat count 0: a slot
decremented to 0 is retired in the same pass, and a due slot whose repeat
count is already 0 at entry is retired without firing. -/
theorem c8_no_due_zero_repeat_after_update (t : TimerState) (now : Nat)
    (j : Nat) (e2 : Event)
    (hget : (Timer.update t now).1.events.get? j = some e2)
    (hocc : e2.eventType ≠ EventType.none)
    (hrc : e2.repeatCount = 0) :
    ∃ e, t.events.get? j = some e ∧ e.repeatCount = 0 ∧ e2 = e
      ∧ Event.elapsed e now < e.period := by
  simp only [Timer.update] at hget
  rw [updateSlots_get?] at hget
  rcases Option.map_eq_some'.mp hget with ⟨e, hget1, hstep⟩
  by_cases hu : e.eventType ≠ EventType.none
  · rw [if_pos hu] at hstep
    rw [← hstep] at hocc hrc
    obtain ⟨heq, h0, hlt⟩ := event_update_occupied_zero e now hocc hrc
    exact ⟨e, hget1, h0, by rw [← hstep, heq], hlt⟩
  · rw [if_neg hu] at hstep
    simp only [not_not] at hu
    rw [← hstep] at hocc
    exact absurd hu hocc

theorem c8_no_due_zero_repeat_after_update_witness :
    (Timer.update ⟨[{ emptyEvent with eventType := EventType.every, period := 10, repeatCount := 0 }]⟩ 5).1.events.get? 0
        = some { emptyEvent with eventType := EventType.every, period := 10, repeatCount := 0 }
    ∧ ({ emptyEvent with eventType := EventType.every, period := 10, repeatCount := 0 } : Event).eventType ≠ EventType.none
    ∧ ({ emptyEvent with eventType := EventType.every, period := 10, repeatCount := 0 } : Event).repeatCount = 0
    ∧ ∃ e, (⟨[{ emptyEvent with eventType := EventType.every, period := 10, repeatCount := 0 }]⟩ : TimerState).events.get? 0 = some e
        ∧ e.repeatCount = 0
        ∧ ({ emptyEvent with eventType := EventType.every, period := 10, repeatCount := 0 } : Event) = e
        ∧ Event.elapsed e 5 < e.period :=
  ⟨by decide, by decide, by decide,
    c8_no_due_zero_repeat_after_update
      ⟨[{ emptyEvent with eventType := EventType.every, period := 10, repeatCount := 0 }]⟩
      5 0 { emptyEvent with eventType := EventType.every, period := 10, repeatCount := 0 }
      (by decide) (by decide) (by decide)⟩

/-- Claim C9 concerns `Timer::~Timer`, which frees the event storage exactly
when `_numberOfEvents` differs from `DEFAULT_NUMBER_OF_EVENTS`. For every value
`d` of the compile-time default, a scheduler built by the sized constructor
with capacity `d` holds a heap block from `malloc` yet the destructor does not
release it (a leak, contradicting the claim and the destructor comment in the
source); a sized scheduler of a different capacity is freed, and a
default-constructed scheduler frees nothing, as the claim states. -/
theorem c9_destructor_leak_at_default_capacity :
    (∀ d : Nat, (Timer.mkSized d).storage = Storage.heap
      ∧ Timer.destructorFrees d (Timer.mkSized d) = false)
    ∧ Timer.destructorFrees 10 (Timer.mkDefault 10) = false
    ∧ Timer.destructorFrees 10 (Timer.mkSized 7) = true :=
  ⟨fun d => ⟨rfl, by simp [Timer.destructorFrees, Timer.mkSized]⟩, by decide, by decide⟩
